import Mathlib

/-!
# Verification of the keykeeper-daily-log repository

Shallow embedding, in Lean 4, of the parts of the repository that the
specification claims talk about:

* `src/contracts/PrivateTodoList.sol` — the on-chain contract: a per-address
  append-only array of encrypted todo items with create / toggle / read
  operations.
* `src/ui/src/hooks/useTodoList.tsx` — the React orchestration hook: local
  storage text caching, hashing of todo text, and the sequencing of
  encrypt / submit / wait / decrypt / cache-reconciliation steps of its
  mutating operations.

External systems (the FHE SDK's encryption, the keccak hash of `ethers.id`,
the chain's proof verification) are not part of the repository; they are
modelled as abstract function parameters.  Everything else is translated
directly from the source.
-/

namespace PrivateTodoList

/-- An account address (the contract only compares addresses for equality). -/
abbrev Address := Nat

/-- An `euint32` ciphertext handle.  The contract never looks inside it. -/
abbrev Euint32 := Nat

/-- An `externalEuint32` handle submitted by a caller. -/
abbrev ExternalEuint32 := Nat

/-- An FHE input proof (opaque bytes). -/
abbrev Proof := Nat

/-- The conversion `FHE.fromExternal` is provided by the external `@fhevm/solidity` library;
its behaviour is abstracted as a function from (external handle, proof)
pairs to internal handles. -/
abbrev FromExternal := ExternalEuint32 → Proof → Euint32

/-- Struct `EncryptedTodo` (PrivateTodoList.sol, lines 13–17). -/
structure EncryptedTodo where
  id : Euint32
  completed : Euint32
  timestamp : Nat
deriving DecidableEq, Repr, Inhabited

/-- Contract storage: `_userTodos` (line 20) and `_todoCount` (line 23). -/
structure ContractState where
  userTodos : Address → List EncryptedTodo
  todoCount : Address → Nat

/-- The state of a freshly deployed contract: every mapping entry is at its
Solidity default (empty array, zero count). -/
def initialState : ContractState :=
  { userTodos := fun _ => [], todoCount := fun _ => 0 }

/-- Function `createTodo` (PrivateTodoList.sol, lines 33–58): converts the two external
ciphertexts, appends the new todo to the sender's array and increments the
sender's count.  (The `FHE.allow*` calls and the emitted event touch no
contract storage modelled here.) -/
def createTodo (fe : FromExternal) (sender : Address) (blockTimestamp : Nat)
    (encryptedId encryptedCompleted : ExternalEuint32)
    (idProof completedProof : Proof) (s : ContractState) : ContractState :=
  let id := fe encryptedId idProof
  let completed := fe encryptedCompleted completedProof
  let newTodo : EncryptedTodo :=
    { id := id, completed := completed, timestamp := blockTimestamp }
  { userTodos := fun a =>
      if a = sender then s.userTodos sender ++ [newTodo] else s.userTodos a,
    todoCount := fun a =>
      if a = sender then s.todoCount sender + 1 else s.todoCount a }

/-- Function `toggleTodo` (PrivateTodoList.sol, lines 64–80): requires the index to be
in bounds, then overwrites the `completed` and `timestamp` fields of the
sender's todo at that index. -/
def toggleTodo (fe : FromExternal) (sender : Address) (blockTimestamp : Nat)
    (todoIndex : Nat) (encryptedCompleted : ExternalEuint32)
    (completedProof : Proof) (s : ContractState) :
    Except String ContractState :=
  if h : todoIndex < (s.userTodos sender).length then
    Except.ok
      { userTodos := fun a =>
          if a = sender then
            (s.userTodos sender).set todoIndex
              { (s.userTodos sender).get ⟨todoIndex, h⟩ with
                  completed := fe encryptedCompleted completedProof,
                  timestamp := blockTimestamp }
          else s.userTodos a,
        todoCount := s.todoCount }
  else
    Except.error "Todo index out of bounds"

/-- EVM revert semantics of a `toggleTodo` transaction: a reverted call
leaves the contract state untouched. -/
def toggleTodoTx (fe : FromExternal) (sender : Address) (blockTimestamp : Nat)
    (todoIndex : Nat) (encryptedCompleted : ExternalEuint32)
    (completedProof : Proof) (s : ContractState) : ContractState :=
  match toggleTodo fe sender blockTimestamp todoIndex encryptedCompleted
      completedProof s with
  | Except.ok s2 => s2
  | Except.error _ => s

/-- Function `getTodo` (PrivateTodoList.sol, lines 88–96). -/
def getTodo (s : ContractState) (user : Address) (index : Nat) :
    Except String (Euint32 × Euint32 × Nat) :=
  if h : index < (s.userTodos user).length then
    let todo := (s.userTodos user).get ⟨index, h⟩
    Except.ok (todo.id, todo.completed, todo.timestamp)
  else
    Except.error "Todo index out of bounds"

/-- Function `getTodoCount` (PrivateTodoList.sol, lines 101–103). -/
def getTodoCount (s : ContractState) (user : Address) : Nat :=
  (s.userTodos user).length

/-- Function `getTodoTimestamps` (PrivateTodoList.sol, lines 108–115): a linear scan
`for i in [0, count)` collecting `_userTodos[user][i].timestamp`. -/
def getTodoTimestamps (s : ContractState) (user : Address) : List Nat :=
  (List.range (getTodoCount s user)).map
    (fun i => ((s.userTodos user).getD i default).timestamp)

end PrivateTodoList

namespace PrivateTodoList

/-- Helper: a concrete two-todo state for witnesses. -/
def sampleState : ContractState :=
  createTodo (fun e _ => e) 5 20 7 0 0 0
    (createTodo (fun e _ => e) 5 10 3 0 0 0 initialState)

theorem sampleState_userTodos_5 :
    sampleState.userTodos 5 =
      [{ id := 3, completed := 0, timestamp := 10 },
       { id := 7, completed := 0, timestamp := 20 }] := by
  simp [sampleState, createTodo, initialState]

/-- Shared elimination principle: a successful `toggleTodo` call means the
index was in bounds and the result state is the pointwise update. -/
theorem toggleTodo_ok_elim {fe : FromExternal} {sender : Address}
    {ts idx : Nat} {ec : ExternalEuint32} {pf : Proof} {s s2 : ContractState}
    (h : toggleTodo fe sender ts idx ec pf s = Except.ok s2) :
    ∃ hlt : idx < (s.userTodos sender).length,
      s2 = { userTodos := fun a =>
               if a = sender then
                 (s.userTodos sender).set idx
                   { (s.userTodos sender).get ⟨idx, hlt⟩ with
                       completed := fe ec pf, timestamp := ts }
               else s.userTodos a,
             todoCount := s.todoCount } := by
  unfold toggleTodo at h
  split at h
  · next hlt => exact ⟨hlt, (Except.ok.inj h).symm⟩
  · cases h

/-- C1: each `createTodo` call appends exactly one todo at the end of the
sender's array (the count grows by one and the new todo is the last element),
every previously stored todo of the sender is unchanged (hence keeps its
`id`, `completed` and `timestamp`), every other address's array is unchanged,
and neither `createTodo` nor a `toggleTodo` transaction ever shortens any
array. -/
theorem createTodo_appends_exactly_one (fe : FromExternal) (sender : Address)
    (ts : Nat) (eid ec : ExternalEuint32) (p1 p2 : Proof) (s : ContractState) :
    getTodoCount (createTodo fe sender ts eid ec p1 p2 s) sender =
      getTodoCount s sender + 1 ∧
    (createTodo fe sender ts eid ec p1 p2 s).userTodos sender =
      s.userTodos sender ++
        [{ id := fe eid p1, completed := fe ec p2, timestamp := ts }] ∧
    (∀ i, i < (s.userTodos sender).length →
      ((createTodo fe sender ts eid ec p1 p2 s).userTodos sender).getD i default
        = (s.userTodos sender).getD i default) ∧
    (∀ a, a ≠ sender →
      (createTodo fe sender ts eid ec p1 p2 s).userTodos a = s.userTodos a) ∧
    (∀ a, (s.userTodos a).length ≤
      ((createTodo fe sender ts eid ec p1 p2 s).userTodos a).length) ∧
    (∀ fe2 sender2 ts2 idx ec2 pf a, (s.userTodos a).length ≤
      ((toggleTodoTx fe2 sender2 ts2 idx ec2 pf s).userTodos a).length) := by
  refine ⟨?_, ?_, ?_, ?_, ?_, ?_⟩
  · simp [getTodoCount, createTodo]
  · simp [createTodo]
  · intro i hi
    simp [createTodo, List.getD_eq_getElem?_getD, List.getElem?_append_left hi]
  · intro a ha
    simp [createTodo, ha]
  · intro a
    by_cases ha : a = sender <;> simp [createTodo, ha]
  · intro fe2 sender2 ts2 idx ec2 pf a
    unfold toggleTodoTx
    split
    · next s2 h =>
      obtain ⟨hlt, rfl⟩ := toggleTodo_ok_elim h
      by_cases ha : a = sender2 <;> simp [ha]
    · exact Nat.le_refl _

/-- C1 witness: on a concrete two-todo state, `createTodo` makes the count 3. -/
theorem createTodo_appends_exactly_one_witness :
    getTodoCount (createTodo (fun e _ => e) 5 20 7 0 0 0 sampleState) 5 = 3 :=
  ((createTodo_appends_exactly_one (fun e _ => e) 5 20 7 0 0 0
    sampleState).1).trans rfl

/-- C2: `toggleTodo` and `getTodo` fail with `"Todo index out of bounds"`
exactly when the index is at least the relevant user's array length, and a
`toggleTodo` transaction that reverts on this check leaves the contract state
unchanged. -/
theorem outOfBounds_revert_iff (fe : FromExternal) (sender user : Address)
    (ts idx index : Nat) (ec : ExternalEuint32) (pf : Proof)
    (s : ContractState) :
    (toggleTodo fe sender ts idx ec pf s =
        Except.error "Todo index out of bounds" ↔
      (s.userTodos sender).length ≤ idx) ∧
    (getTodo s user index = Except.error "Todo index out of bounds" ↔
      (s.userTodos user).length ≤ index) ∧
    ((s.userTodos sender).length ≤ idx →
      toggleTodoTx fe sender ts idx ec pf s = s) := by
  refine ⟨?_, ?_, ?_⟩
  · unfold toggleTodo
    split
    · next h => simp [Nat.not_le.mpr h]
    · next h => simp [Nat.not_lt.mp h]
  · unfold getTodo
    split
    · next h => simp [Nat.not_le.mpr h]
    · next h => simp [Nat.not_lt.mp h]
  · intro h
    unfold toggleTodoTx
    split
    · next s2 h2 =>
      obtain ⟨hlt, _⟩ := toggleTodo_ok_elim h2
      exact absurd hlt (Nat.not_lt.mpr h)
    · rfl

/-- C2 witness: index 5 is out of bounds on the concrete two-todo state, so
the transaction reverts and leaves the state intact. -/
theorem outOfBounds_revert_iff_witness :
    toggleTodoTx (fun e _ => e) 5 30 5 1 0 sampleState = sampleState := by
  refine (outOfBounds_revert_iff (fun e _ => e) 5 5 30 5 5 1 0 sampleState).2.2 ?_
  rw [sampleState_userTodos_5]
  decide

/-- C3: `createTodo` stores the current block timestamp in the new todo,
a successful `toggleTodo` overwrites the toggled todo's timestamp with the
current block timestamp, and `getTodoTimestamps` returns an array of length
`getTodoCount` whose `i`-th entry is the timestamp stored in the user's
`i`-th todo. -/
theorem timestamps_plaintext (fe : FromExternal) (sender user : Address)
    (ts idx : Nat) (eid ec : ExternalEuint32) (p1 p2 pf : Proof)
    (s s2 : ContractState) :
    (((createTodo fe sender ts eid ec p1 p2 s).userTodos sender).getD
        (s.userTodos sender).length default).timestamp = ts ∧
    (toggleTodo fe sender ts idx ec pf s = Except.ok s2 →
      ((s2.userTodos sender).getD idx default).timestamp = ts) ∧
    (getTodoTimestamps s user).length = getTodoCount s user ∧
    (∀ i, i < getTodoCount s user →
      (getTodoTimestamps s user).getD i 0 =
        ((s.userTodos user).getD i default).timestamp) := by
  refine ⟨?_, ?_, ?_, ?_⟩
  · simp [createTodo, List.getD_eq_getElem?_getD]
  · intro h
    obtain ⟨hlt, rfl⟩ := toggleTodo_ok_elim h
    simp [List.getD_eq_getElem?_getD, List.getElem?_set_eq_of_lt _ hlt]
  · simp [getTodoTimestamps, getTodoCount]
  · intro i hi
    simp [getTodoTimestamps, List.getD_eq_getElem?_getD,
      List.getElem?_range hi]

/-- C3 witness: on the concrete two-todo state, the timestamp array's entry 1
is the second todo's stored timestamp, 20. -/
theorem timestamps_plaintext_witness :
    (getTodoTimestamps sampleState 5).getD 1 0 = 20 :=
  ((timestamps_plaintext (fun e _ => e) 5 5 30 1 1 1 0 0 0 sampleState
      sampleState).2.2.2 1 (by decide)).trans rfl

/-- C4: a successful `toggleTodo` changes only the `completed` field (to the
value `FHE.fromExternal` derives from the submitted ciphertext) and the
`timestamp` field (to the current block timestamp) of the sender's todo at
the given index; that todo's encrypted id, the sender's other todos, the
sender's todo count, and every other address's todos are unchanged. -/
theorem toggleTodo_frame (fe : FromExternal) (sender : Address) (ts idx : Nat)
    (ec : ExternalEuint32) (pf : Proof) (s s2 : ContractState)
    (h : toggleTodo fe sender ts idx ec pf s = Except.ok s2) :
    ((s2.userTodos sender).getD idx default).completed = fe ec pf ∧
    ((s2.userTodos sender).getD idx default).timestamp = ts ∧
    ((s2.userTodos sender).getD idx default).id =
      ((s.userTodos sender).getD idx default).id ∧
    (∀ j, j ≠ idx →
      (s2.userTodos sender).getD j default =
        (s.userTodos sender).getD j default) ∧
    getTodoCount s2 sender = getTodoCount s sender ∧
    s2.todoCount = s.todoCount ∧
    (∀ a, a ≠ sender → s2.userTodos a = s.userTodos a) := by
  obtain ⟨hlt, rfl⟩ := toggleTodo_ok_elim h
  refine ⟨?_, ?_, ?_, ?_, ?_, rfl, ?_⟩
  · simp [List.getD_eq_getElem?_getD, List.getElem?_set_eq_of_lt _ hlt]
  · simp [List.getD_eq_getElem?_getD, List.getElem?_set_eq_of_lt _ hlt]
  · simp [List.getD_eq_getElem?_getD, List.getElem?_set_eq_of_lt _ hlt,
      List.getElem?_eq_getElem hlt]
  · intro j hj
    simp [List.getD_eq_getElem?_getD, List.getElem?_set_ne (Ne.symm hj)]
  · simp [getTodoCount]
  · intro a ha
    simp [ha]

/-- A concrete successful toggle of todo 0 in the two-todo state. -/
def sampleToggled : ContractState :=
  toggleTodoTx (fun e _ => e) 5 30 0 1 9 sampleState

/-- C4 witness: toggling todo 0 of the concrete state sets its `completed`
handle to the converted ciphertext, here 1. -/
theorem toggleTodo_frame_witness :
    ((sampleToggled.userTodos 5).getD 0 default).completed = 1 :=
  (toggleTodo_frame (fun e _ => e) 5 30 0 1 9 sampleState sampleToggled
    rfl).1

/-- The C8 invariant: the `_todoCount` mapping always mirrors the length of
the `_userTodos` array, for every address. -/
def CountInvariant (s : ContractState) : Prop :=
  ∀ a, s.todoCount a = (s.userTodos a).length

/-- C8: the count invariant holds initially, `createTodo` preserves it by
pushing one element and incrementing the count together, and a `toggleTodo`
transaction changes neither the count nor any array length. -/
theorem countInvariant_preserved :
    CountInvariant initialState ∧
    (∀ fe sender ts eid ec p1 p2 s, CountInvariant s →
      CountInvariant (createTodo fe sender ts eid ec p1 p2 s)) ∧
    (∀ fe sender ts idx ec pf s, CountInvariant s →
      CountInvariant (toggleTodoTx fe sender ts idx ec pf s)) := by
  refine ⟨?_, ?_, ?_⟩
  · intro a
    rfl
  · intro fe sender ts eid ec p1 p2 s hs a
    by_cases ha : a = sender <;> simp [createTodo, ha, hs sender, hs a]
  · intro fe sender ts idx ec pf s hs a
    unfold toggleTodoTx
    split
    · next s2 h =>
      obtain ⟨hlt, rfl⟩ := toggleTodo_ok_elim h
      by_cases ha : a = sender <;> simp [ha, hs sender, hs a]
    · exact hs a

/-- C8 witness: the invariant holds on the concrete two-todo state, built by
two `createTodo` calls from the initial state. -/
theorem countInvariant_preserved_witness : CountInvariant sampleState := by
  unfold sampleState
  exact countInvariant_preserved.2.1 (fun e _ => e) 5 20 7 0 0 0 _
    (countInvariant_preserved.2.1 (fun e _ => e) 5 10 3 0 0 0 initialState
      countInvariant_preserved.1)

end PrivateTodoList

namespace UseTodoList

/-! ## The browser hook `useTodoList.tsx`

JavaScript string primitives used by the hook (`toLowerCase`, `trim`,
`startsWith`, `JSON.stringify` / `JSON.parse` on string-to-string records)
are part of the runtime, not of the repository; they are modelled here by
executable Lean functions with the same behaviour on the values the hook
feeds them. -/

/-- JS `String.prototype.toLowerCase` (ASCII case mapping). -/
def jsToLower (s : String) : String :=
  String.mk (s.data.map Char.toLower)

/-- JS whitespace recognised by `String.prototype.trim` (ASCII portion). -/
def isJsWhitespace (c : Char) : Bool :=
  c = ' ' || c = Char.ofNat 9 || c = Char.ofNat 10 || c = Char.ofNat 11 ||
    c = Char.ofNat 12 || c = Char.ofNat 13

/-- JS `String.prototype.trim`. -/
def jsTrim (s : String) : String :=
  String.mk
    (((s.data.dropWhile isJsWhitespace).reverse.dropWhile
        isJsWhitespace).reverse)

/-- JS `String.prototype.startsWith`. -/
def jsStartsWith (s pat : String) : Bool :=
  pat.data.isPrefixOf s.data

/-! ### JSON codec for string-to-string records

`JSON.stringify` on a plain JS object with string values emits
`{"k":"v",...}` in insertion order, escaping `"`, `\` and control
characters; `JSON.parse` inverts it.  A record is modelled as an
association list in insertion order with distinct keys. -/

/-- Lowercase hex digit, as JS `Number.prototype.toString(16)` emits. -/
def hexDigitChar (n : Nat) : Char :=
  if n < 10 then Char.ofNat (48 + n) else Char.ofNat (87 + n)

/-- How `JSON.stringify` escapes one character inside a string literal. -/
def escapeChar (c : Char) : List Char :=
  if c = '"' then ['\\', '"']
  else if c = '\\' then ['\\', '\\']
  else if c = Char.ofNat 8 then ['\\', 'b']
  else if c = Char.ofNat 9 then ['\\', 't']
  else if c = Char.ofNat 10 then ['\\', 'n']
  else if c = Char.ofNat 12 then ['\\', 'f']
  else if c = Char.ofNat 13 then ['\\', 'r']
  else if c.toNat < 32 then
    ['\\', 'u', '0', '0', hexDigitChar (c.toNat / 16),
      hexDigitChar (c.toNat % 16)]
  else [c]

/-- Escape a whole string body, character by character. -/
def escapeString : List Char → List Char
  | [] => []
  | c :: s => escapeChar c ++ escapeString s

/-- A JSON string literal: `"` body `"`. -/
def quoteString (s : String) : List Char :=
  '"' :: (escapeString s.data ++ ['"'])

/-- One `"key":"value"` member. -/
def stringifyMember (kv : String × String) : List Char :=
  quoteString kv.1 ++ ':' :: quoteString kv.2

/-- Comma-separated members, in insertion order. -/
def stringifyMembers : List (String × String) → List Char
  | [] => []
  | [kv] => stringifyMember kv
  | kv :: rest => stringifyMember kv ++ ',' :: stringifyMembers rest

/-- Serialisation `JSON.stringify` of a string-to-string record. -/
def jsonStringify (m : List (String × String)) : String :=
  String.mk ('{' :: (stringifyMembers m ++ ['}']))

/-- Value of a hex digit, if any. -/
def hexVal (c : Char) : Option Nat :=
  if 48 ≤ c.toNat ∧ c.toNat ≤ 57 then some (c.toNat - 48)
  else if 97 ≤ c.toNat ∧ c.toNat ≤ 102 then some (c.toNat - 87)
  else if 65 ≤ c.toNat ∧ c.toNat ≤ 70 then some (c.toNat - 55)
  else none

/-- Prepend a character to a successful string-parse result. -/
def pushChar (c : Char) :
    Option (List Char × List Char) → Option (List Char × List Char)
  | some (s, r) => some (c :: s, r)
  | none => none

/-- Parse a JSON string body up to and including its closing quote,
returning the decoded body and the remaining input. -/
def parseStringBody : List Char → Option (List Char × List Char)
  | [] => none
  | c :: rest =>
    if c = '"' then some ([], rest)
    else if c = '\\' then
      match rest with
      | [] => none
      | e :: rest2 =>
        if e = '"' then pushChar '"' (parseStringBody rest2)
        else if e = '\\' then pushChar '\\' (parseStringBody rest2)
        else if e = '/' then pushChar '/' (parseStringBody rest2)
        else if e = 'b' then pushChar (Char.ofNat 8) (parseStringBody rest2)
        else if e = 't' then pushChar (Char.ofNat 9) (parseStringBody rest2)
        else if e = 'n' then pushChar (Char.ofNat 10) (parseStringBody rest2)
        else if e = 'f' then pushChar (Char.ofNat 12) (parseStringBody rest2)
        else if e = 'r' then pushChar (Char.ofNat 13) (parseStringBody rest2)
        else if e = 'u' then
          match rest2 with
          | d1 :: d2 :: d3 :: d4 :: rest3 =>
            match hexVal d1, hexVal d2, hexVal d3, hexVal d4 with
            | some v1, some v2, some v3, some v4 =>
              if ((v1 * 16 + v2) * 16 + v3) * 16 + v4 < 55296 then
                pushChar (Char.ofNat (((v1 * 16 + v2) * 16 + v3) * 16 + v4))
                  (parseStringBody rest3)
              else none
            | _, _, _, _ => none
          | _ => none
        else none
    else pushChar c (parseStringBody rest)

/-- Parse one `"key":"value"` member. -/
def parseMember (l : List Char) : Option ((String × String) × List Char) :=
  match l with
  | [] => none
  | c :: rest =>
    if c = '"' then
      match parseStringBody rest with
      | none => none
      | some (k, rest2) =>
        match rest2 with
        | [] => none
        | c2 :: rest3 =>
          if c2 = ':' then
            match rest3 with
            | [] => none
            | c3 :: rest4 =>
              if c3 = '"' then
                match parseStringBody rest4 with
                | none => none
                | some (v, rest5) => some ((String.mk k, String.mk v), rest5)
              else none
          else none
    else none

/-- Parse the members of an object after its `{`, up to and including the
closing `}` (fuelled; the fuel bounds the number of members). -/
def parseMembers : Nat → List Char → Option (List (String × String) × List Char)
  | _, [] => none
  | fuel, c :: rest =>
    if c = '}' then some ([], rest)
    else
      match fuel with
      | 0 => none
      | fuel2 + 1 =>
        match parseMember (c :: rest) with
        | none => none
        | some (kv, rest2) =>
          match rest2 with
          | [] => none
          | c2 :: rest3 =>
            if c2 = '}' then some ([kv], rest3)
            else if c2 = ',' then
              match parseMembers fuel2 rest3 with
              | none => none
              | some (m, rest4) => some (kv :: m, rest4)
            else none

/-- Parsing `JSON.parse` of a string-to-string record (`none` models a thrown
`SyntaxError`). -/
def jsonParseMap (s : String) : Option (List (String × String)) :=
  match s.data with
  | [] => none
  | c :: rest =>
    if c = '{' then
      match parseMembers s.data.length rest with
      | some (m, []) => some m
      | _ => none
    else none

/-- JS record lookup `m[k]` (`none` models `undefined`). -/
def recordGet (m : List (String × String)) (k : String) : Option String :=
  (m.find? (fun kv => kv.1 == k)).map Prod.snd

/-- JS record assignment `m[k] = v`: updates the existing key in place, or
appends a new key in insertion order. -/
def recordSet (m : List (String × String)) (k v : String) :
    List (String × String) :=
  if (m.map Prod.fst).contains k then
    m.map (fun kv => if kv.1 = k then (k, v) else kv)
  else m ++ [(k, v)]

/-- The browser's `localStorage`: `getItem` returns `null` for a missing
key. -/
abbrev LocalStorage := String → Option String

/-- The browser call `localStorage.setItem`. -/
def lsSetItem (st : LocalStorage) (k v : String) : LocalStorage :=
  fun x => if x = k then some v else st x

/-- Constant `TEXT_MAP_KEY` (useTodoList.tsx, line 42). -/
def TEXT_MAP_KEY : String := "todo_text_map"

/-- The address-scoped storage key of the text map (line 117). -/
def textMapKey (address : String) : String :=
  TEXT_MAP_KEY ++ "_" ++ address

/-- Function `getTextMap` (useTodoList.tsx, lines 112–128) for a connected address:
reads the per-address key and parses it; a missing or empty entry yields the
empty record.  `none` models `JSON.parse` throwing. -/
def getTextMap (st : LocalStorage) (address : String) :
    Option (List (String × String)) :=
  match st (textMapKey address) with
  | none => some []
  | some stored => if stored = "" then some [] else jsonParseMap stored

/-- Function `saveTextMap` (useTodoList.tsx, lines 131–134). -/
def saveTextMap (st : LocalStorage) (address : String)
    (m : List (String × String)) : LocalStorage :=
  lsSetItem st (textMapKey address) (jsonStringify m)

theorem hexVal_hexDigitChar (v : Nat) (h : v < 16) :
    hexVal (hexDigitChar v) = some v := by
  interval_cases v <;> decide

theorem parseStringBody_escapeChar (c : Char) (rest : List Char) :
    parseStringBody (escapeChar c ++ rest) =
      pushChar c (parseStringBody rest) := by
  unfold escapeChar
  split_ifs with h1 h2 h3 h4 h5 h6 h7 h8
  · subst h1
    rw [parseStringBody.eq_def]
    simp
  · subst h2
    rw [parseStringBody.eq_def]
    simp
  · subst h3
    rw [parseStringBody.eq_def]
    simp
  · subst h4
    rw [parseStringBody.eq_def]
    simp
  · subst h5
    rw [parseStringBody.eq_def]
    simp
  · subst h6
    rw [parseStringBody.eq_def]
    simp
  · subst h7
    rw [parseStringBody.eq_def]
    simp
  · rw [parseStringBody.eq_def]
    have harith : c.toNat / 16 * 16 + c.toNat % 16 = c.toNat := by
      omega
    simp [hexVal_hexDigitChar (c.toNat / 16) (by omega),
      hexVal_hexDigitChar (c.toNat % 16) (by omega), harith,
      (show hexVal (Char.ofNat 48) = some 0 by decide),
      Char.ofNat_toNat, (show c.toNat < 55296 by omega)]
  · rw [parseStringBody.eq_def]
    simp [h1, h2]

theorem parseStringBody_escapeString (s r : List Char) :
    parseStringBody (escapeString s ++ '"' :: r) = some (s, r) := by
  induction s with
  | nil =>
    rw [escapeString, List.nil_append, parseStringBody.eq_def]
    simp
  | cons c s ih =>
    rw [escapeString, List.append_assoc, parseStringBody_escapeChar, ih,
      pushChar]

theorem stringifyMember_cons (kv : String × String) (r : List Char) :
    stringifyMember kv ++ r =
      '"' :: (escapeString kv.1.data ++ '"' ::
        (':' :: '"' :: (escapeString kv.2.data ++ '"' :: r))) := by
  simp [stringifyMember, quoteString]

theorem parseMember_stringifyMember (kv : String × String) (r : List Char) :
    parseMember (stringifyMember kv ++ r) = some (kv, r) := by
  obtain ⟨k, v⟩ := kv
  rw [stringifyMember_cons]
  unfold parseMember
  simp [parseStringBody_escapeString]

theorem parseMembers_stringifyMembers (m : List (String × String))
    (r : List Char) (fuel : Nat) (hf : m.length ≤ fuel) :
    parseMembers fuel (stringifyMembers m ++ '}' :: r) = some (m, r) := by
  induction m generalizing r fuel with
  | nil =>
    rw [stringifyMembers, List.nil_append, parseMembers.eq_def]
    cases fuel <;> simp
  | cons kv rest ih =>
    cases rest with
    | nil =>
      cases fuel with
      | zero => simp at hf
      | succ f =>
        rw [stringifyMembers, stringifyMember_cons, parseMembers.eq_def]
        simp only []
        rw [← stringifyMember_cons]
        simp [parseMember_stringifyMember]
    | cons kv2 rest2 =>
      cases fuel with
      | zero => simp at hf
      | succ f =>
        have hlen : (kv2 :: rest2).length ≤ f := by
          simp at hf ⊢
          omega
        rw [show stringifyMembers (kv :: kv2 :: rest2) =
            stringifyMember kv ++ ',' :: stringifyMembers (kv2 :: rest2)
          from rfl]
        rw [List.append_assoc, stringifyMember_cons, parseMembers.eq_def]
        simp only []
        rw [← stringifyMember_cons]
        simp [parseMember_stringifyMember, ih _ _ hlen]

theorem length_le_stringifyMember (kv : String × String) :
    1 ≤ (stringifyMember kv).length := by
  simp [stringifyMember, quoteString]

theorem length_le_stringifyMembers (m : List (String × String)) :
    m.length ≤ (stringifyMembers m).length := by
  induction m with
  | nil => simp [stringifyMembers]
  | cons kv rest ih =>
    cases rest with
    | nil =>
      simpa [stringifyMembers] using length_le_stringifyMember kv
    | cons kv2 rest2 =>
      have h1 := length_le_stringifyMember kv
      rw [show stringifyMembers (kv :: kv2 :: rest2) =
          stringifyMember kv ++ ',' :: stringifyMembers (kv2 :: rest2)
        from rfl]
      simp only [List.length_append, List.length_cons] at *
      omega

/-- Parsing inverts serialisation on string-to-string records. -/
theorem jsonParseMap_jsonStringify (m : List (String × String)) :
    jsonParseMap (jsonStringify m) = some m := by
  unfold jsonParseMap jsonStringify
  have hf : m.length ≤ (stringifyMembers m).length + 1 + 1 := by
    have := length_le_stringifyMembers m
    omega
  simp [parseMembers_stringifyMembers m [] _ hf]

/-! ### The mutating operations of the hook, as event traces

`createTodo` (lines 156–285) and `toggleTodo` (lines 370–455) are
sequential `async` functions: each `await` completes before the next
statement runs, so each run is modelled as the list of externally visible
events it performs, in program order. -/

/-- A JS runtime value holding an SDK handle or proof: either a hex string
or a `Uint8Array` / number array of bytes. -/
inductive JsValue where
  | str (s : String)
  | bytes (b : List Nat)
deriving DecidableEq, Repr

/-- The byte-to-hex conversion `b.toString(16).padStart(2, '0')`
(line 236). -/
def toHexByte (b : Nat) : String :=
  String.mk [hexDigitChar (b / 16 % 16), hexDigitChar (b % 16)]

/-- The handle normalisation of `createTodo` (lines 228–246): a string
handle is lowercased; a byte-array handle becomes `0x` + lowercase hex.
(The final `else` branch for exotic runtime values is not modelled: SDK
handles are strings or byte arrays.) -/
def normalizeHandle : JsValue → String
  | JsValue.str s => jsToLower s
  | JsValue.bytes b => "0x" ++ jsToLower (String.join (b.map toHexByte))

/-- Conversion `ethers.hexlify` on a fetched handle (used at lines 385–387 when the
contract returns bytes); a string is already hex. -/
def jsHandleToHex : JsValue → String
  | JsValue.str s => s
  | JsValue.bytes b => "0x" ++ String.join (b.map toHexByte)

/-- The result of `createEncryptedInput(...).add32(v).encrypt()`: a list of
handles and an input proof. -/
structure EncryptedInput where
  handles : List JsValue
  inputProof : JsValue
deriving DecidableEq, Repr

/-- The external FHE SDK's encryption, abstracted as a function of the
32-bit plaintext added to the input. -/
abbrev EncryptFn := Nat → EncryptedInput

/-- Hashing `ethers.id` (keccak-256 of the UTF-8 text), abstracted as a function
into 256-bit numbers. -/
abbrev Keccak := String → Nat

/-- Function `hashTextToUint32` (useTodoList.tsx, lines 150–154):
`BigInt(ethers.id(text)) & 0xFFFFFFFF`. -/
def hashTextToUint32 (keccak : Keccak) (text : String) : Nat :=
  Nat.land (keccak text) 4294967295

/-- Externally visible events a hook operation can perform, in program
order. -/
inductive HookEvent where
  | setMessage (msg : String)
  | encrypt32 (contractAddr userAddr : String) (plaintext : Nat)
  | submitCreateTodo (contractAddr : String)
      (idHandle completedHandle idProof completedProof : JsValue)
  | submitToggleTodo (contractAddr : String) (index : Nat)
      (completedHandle proof : JsValue)
  | fetchGetTodo (contractAddr userAddr : String) (index : Nat)
  | txWait
  | decryptRequest (handles : List String)
  | storageSetItem (key value : String)
  | updateLocalTodos
  | scheduleLoadTodos
deriving DecidableEq, Repr

/-- The hook's environment: configured contract address, connected wallet
address, and readiness of the signer / FHEVM instance / provider. -/
structure HookCtx where
  contractAddress : Option String
  address : Option String
  signerReady : Bool
  instanceReady : Bool
  providerReady : Bool

/-- Status message for empty todo text (line 159). -/
def emptyTextMsg : String := "Todo text cannot be empty"

/-- Error for a missing contract address (line 164). -/
def noContractMsg : String :=
  "Contract address not configured. Please set VITE_CONTRACT_ADDRESS in .env.local"

/-- Error for a missing signer / instance / address / provider (line 170). -/
def noWalletMsg : String := "Wallet not connected or FHEVM not initialized"

/-- Error for an empty id-handle list (line 192). -/
def invalidHandleMsg : String := "Encryption failed: Invalid handle returned"

/-- Error for an empty completion-handle list (line 205). -/
def invalidCompletionMsg : String :=
  "Encryption failed: Invalid completion handle returned"

/-- Outcome of one `createTodo` run: the events performed in order, the
rethrown error if any, and the final `localStorage`. -/
structure CreateTodoResult where
  events : List HookEvent
  thrown : Option String
  storage : LocalStorage

/-- Function `createTodo` of the hook (useTodoList.tsx, lines 156–285), as a run
producing its event trace.  `encId` and `encCompleted` are the SDK
encryptions of the two `createEncryptedInput` calls; `keccak` is
`ethers.id`.  The receipt-log parsing (line 223) and `console` calls touch
no modelled state. -/
def createTodoRun (ctx : HookCtx) (keccak : Keccak)
    (encId encCompleted : EncryptFn) (text : String) (st : LocalStorage) :
    CreateTodoResult :=
  if jsTrim text = "" then
    { events := [HookEvent.setMessage emptyTextMsg], thrown := none,
      storage := st }
  else if ctx.contractAddress.isNone then
    { events := [HookEvent.setMessage noContractMsg],
      thrown := some noContractMsg, storage := st }
  else
    let contractAddr := ctx.contractAddress.getD ""
    if ctx.signerReady && ctx.instanceReady && ctx.address.isSome &&
        ctx.providerReady then
      let userAddr := ctx.address.getD ""
      let todoIdUint32 := hashTextToUint32 keccak text
      let eId := encId todoIdUint32
      if eId.handles.isEmpty then
        { events := [HookEvent.setMessage "Encrypting todo...",
            HookEvent.encrypt32 contractAddr userAddr todoIdUint32,
            HookEvent.setMessage ("Error: " ++ invalidHandleMsg)],
          thrown := some invalidHandleMsg, storage := st }
      else
        let eCompleted := encCompleted 0
        if eCompleted.handles.isEmpty then
          { events := [HookEvent.setMessage "Encrypting todo...",
              HookEvent.encrypt32 contractAddr userAddr todoIdUint32,
              HookEvent.encrypt32 contractAddr userAddr 0,
              HookEvent.setMessage ("Error: " ++ invalidCompletionMsg)],
            thrown := some invalidCompletionMsg, storage := st }
        else
          match getTextMap st userAddr with
          | none =>
            { events := [HookEvent.setMessage "Encrypting todo...",
                HookEvent.encrypt32 contractAddr userAddr todoIdUint32,
                HookEvent.encrypt32 contractAddr userAddr 0,
                HookEvent.setMessage "Submitting to blockchain...",
                HookEvent.submitCreateTodo contractAddr
                  (eId.handles.headD (JsValue.str ""))
                  (eCompleted.handles.headD (JsValue.str ""))
                  eId.inputProof eCompleted.inputProof,
                HookEvent.txWait,
                HookEvent.setMessage "Error: JSON.parse"],
              thrown := some "JSON.parse", storage := st }
          | some tm =>
            let handle := normalizeHandle
              (eId.handles.headD (JsValue.str ""))
            if handle ≠ "" ∧ jsStartsWith handle "0x" then
              { events := [HookEvent.setMessage "Encrypting todo...",
                  HookEvent.encrypt32 contractAddr userAddr todoIdUint32,
                  HookEvent.encrypt32 contractAddr userAddr 0,
                  HookEvent.setMessage "Submitting to blockchain...",
                  HookEvent.submitCreateTodo contractAddr
                    (eId.handles.headD (JsValue.str ""))
                    (eCompleted.handles.headD (JsValue.str ""))
                    eId.inputProof eCompleted.inputProof,
                  HookEvent.txWait,
                  HookEvent.storageSetItem (textMapKey userAddr)
                    (jsonStringify (recordSet tm handle text)),
                  HookEvent.setMessage "Todo created successfully!",
                  HookEvent.scheduleLoadTodos],
                thrown := none,
                storage := saveTextMap st userAddr
                  (recordSet tm handle text) }
            else
              { events := [HookEvent.setMessage "Encrypting todo...",
                  HookEvent.encrypt32 contractAddr userAddr todoIdUint32,
                  HookEvent.encrypt32 contractAddr userAddr 0,
                  HookEvent.setMessage "Submitting to blockchain...",
                  HookEvent.submitCreateTodo contractAddr
                    (eId.handles.headD (JsValue.str ""))
                    (eCompleted.handles.headD (JsValue.str ""))
                    eId.inputProof eCompleted.inputProof,
                  HookEvent.txWait,
                  HookEvent.setMessage "Todo created successfully!",
                  HookEvent.scheduleLoadTodos],
                thrown := none, storage := st }
    else
      { events := [HookEvent.setMessage noWalletMsg],
        thrown := some noWalletMsg, storage := st }

/-- The decoding of a decrypted completion value (line 362):
`Number(v) === 1`. -/
def decodeCompleted (v : Nat) : Bool := v == 1

/-- Function `toggleTodo` of the hook (useTodoList.tsx, lines 370–455), as a run
producing its event trace.  `dec` is the SDK's `userDecrypt` result keyed
by handle; `fetchedCompleted` is the completion handle returned by the
contract's `getTodo`; the optimistic `setTodos` / completed-map update
(lines 424–439) is the single `updateLocalTodos` event. -/
def toggleTodoRun (ctx : HookCtx) (enc : EncryptFn) (dec : String → Nat)
    (fetchedCompleted : JsValue) (contractIndex : Nat) :
    List HookEvent × Option String :=
  if ctx.contractAddress.isSome && ctx.signerReady && ctx.instanceReady &&
      ctx.address.isSome && ctx.providerReady then
    let contractAddr := ctx.contractAddress.getD ""
    let userAddr := ctx.address.getD ""
    let completedHandle := jsToLower (jsHandleToHex fetchedCompleted)
    let currentCompleted := decodeCompleted (dec completedHandle)
    let newCompleted := if currentCompleted then 0 else 1
    let eNew := enc newCompleted
    ([HookEvent.setMessage "Fetching current todo status...",
      HookEvent.fetchGetTodo contractAddr userAddr contractIndex,
      HookEvent.setMessage "Decrypting current status...",
      HookEvent.decryptRequest [completedHandle],
      HookEvent.setMessage "Encrypting new status...",
      HookEvent.encrypt32 contractAddr userAddr newCompleted,
      HookEvent.setMessage "Submitting to blockchain...",
      HookEvent.submitToggleTodo contractAddr contractIndex
        (eNew.handles.headD (JsValue.str "")) eNew.inputProof,
      HookEvent.txWait,
      HookEvent.setMessage "Todo toggled successfully!",
      HookEvent.updateLocalTodos,
      HookEvent.scheduleLoadTodos], none)
  else
    ([HookEvent.setMessage "Missing requirements for toggling todo"], none)

/-- The five step kinds named by the specification's pipeline. -/
inductive HookStep where
  | encrypt
  | submit
  | waitReceipt
  | decrypt
  | reconcile
deriving DecidableEq, Repr

/-- Classify an event as one of the specification's pipeline steps.
Reconciliation with the local cache is a storage write or the optimistic
`setTodos` update. -/
def stepOf : HookEvent → Option HookStep
  | HookEvent.encrypt32 _ _ _ => some HookStep.encrypt
  | HookEvent.submitCreateTodo _ _ _ _ _ => some HookStep.submit
  | HookEvent.submitToggleTodo _ _ _ _ => some HookStep.submit
  | HookEvent.txWait => some HookStep.waitReceipt
  | HookEvent.decryptRequest _ => some HookStep.decrypt
  | HookEvent.storageSetItem _ _ => some HookStep.reconcile
  | HookEvent.updateLocalTodos => some HookStep.reconcile
  | _ => none

/-- The pipeline steps an operation performs, in order. -/
def stepsOf (events : List HookEvent) : List HookStep :=
  events.filterMap stepOf

/-- Text shown for a todo by `loadTodos` (lines 504–507): the cached text
for its id handle, or the placeholder; the empty string is falsy in JS and
also falls back to the placeholder. -/
def displayText (tm : List (String × String)) (idHandle : String)
    (index : Nat) : String :=
  match recordGet tm idHandle with
  | some t => if t = "" then "Encrypted Todo #" ++ toString (index + 1) else t
  | none => "Encrypted Todo #" ++ toString (index + 1)

/-- The lowercased handle under which `createTodo` caches the todo's text:
the normalised first handle of the id encryption (lines 228–246). -/
def createdIdHandle (keccak : Keccak) (encId : EncryptFn) (text : String) :
    String :=
  normalizeHandle
    ((encId (hashTextToUint32 keccak text)).handles.headD (JsValue.str ""))

theorem recordGet_recordSet_self (m : List (String × String))
    (k v : String) : recordGet (recordSet m k v) k = some v := by
  unfold recordSet recordGet
  split
  · next hc =>
    induction m with
    | nil => simp at hc
    | cons kv0 m ih =>
      by_cases h : kv0.1 = k
      · rw [List.map_cons, if_pos h, List.find?_cons_of_pos _ (by simp)]
        rfl
      · have hc2 : (m.map Prod.fst).contains k := by
          simp only [List.map_cons, List.contains_cons] at hc
          simp at hc ⊢
          rcases hc with hc | hc
          · exact absurd hc.symm h
          · exact hc
        rw [List.map_cons, if_neg h,
          List.find?_cons_of_neg _ (by simpa using h)]
        exact ih hc2
  · next hc =>
    have hnone : m.find? (fun kv => kv.1 == k) = none := by
      rw [List.find?_eq_none]
      intro kv hkv
      simp only [beq_iff_eq]
      intro he
      apply hc
      have hmem : k ∈ m.map Prod.fst :=
        he ▸ List.mem_map_of_mem Prod.fst hkv
      simpa using hmem
    rw [List.find?_append, hnone]
    simp [List.find?]

theorem textMapKey_injective (a1 a2 : String)
    (h : textMapKey a1 = textMapKey a2) : a1 = a2 := by
  unfold textMapKey at h
  have h2 := congrArg String.data h
  simp only [String.data_append] at h2
  exact String.ext (List.append_cancel_left h2)

theorem getTextMap_saveTextMap (st : LocalStorage) (addr : String)
    (m : List (String × String)) :
    getTextMap (saveTextMap st addr m) addr = some m := by
  unfold getTextMap saveTextMap lsSetItem
  have hne : ¬ jsonStringify m = "" := by
    intro h
    have h2 : (jsonStringify m).data = [] := by
      rw [h]
    simp only [jsonStringify] at h2
    cases h2
  simp [hne, jsonParseMap_jsonStringify]

/-- Characterisation of a fully successful `createTodo` run: with a
configured contract, connected wallet, non-blank text, non-empty handle
lists, parseable stored text map and a valid hex id handle, the run performs
exactly the encrypt → encrypt → submit → wait → cache-write → message →
reload sequence, throws nothing, and saves the text under the id handle. -/
theorem createTodoRun_happy (ctx : HookCtx) (keccak : Keccak)
    (encId encCompleted : EncryptFn) (text : String) (st : LocalStorage)
    (ca addr : String) (tm : List (String × String))
    (hca : ctx.contractAddress = some ca) (haddr : ctx.address = some addr)
    (hsr : ctx.signerReady = true) (hir : ctx.instanceReady = true)
    (hpr : ctx.providerReady = true) (htext : ¬ jsTrim text = "")
    (hid : (encId (hashTextToUint32 keccak text)).handles ≠ [])
    (hcm : (encCompleted 0).handles ≠ [])
    (htm : getTextMap st addr = some tm)
    (hh1 : createdIdHandle keccak encId text ≠ "")
    (hh2 : jsStartsWith (createdIdHandle keccak encId text) "0x" = true) :
    createTodoRun ctx keccak encId encCompleted text st =
      { events := [HookEvent.setMessage "Encrypting todo...",
          HookEvent.encrypt32 ca addr (hashTextToUint32 keccak text),
          HookEvent.encrypt32 ca addr 0,
          HookEvent.setMessage "Submitting to blockchain...",
          HookEvent.submitCreateTodo ca
            ((encId (hashTextToUint32 keccak text)).handles.headD
              (JsValue.str ""))
            ((encCompleted 0).handles.headD (JsValue.str ""))
            (encId (hashTextToUint32 keccak text)).inputProof
            (encCompleted 0).inputProof,
          HookEvent.txWait,
          HookEvent.storageSetItem (textMapKey addr)
            (jsonStringify
              (recordSet tm (createdIdHandle keccak encId text) text)),
          HookEvent.setMessage "Todo created successfully!",
          HookEvent.scheduleLoadTodos],
        thrown := none,
        storage := saveTextMap st addr
          (recordSet tm (createdIdHandle keccak encId text) text) } := by
  unfold createdIdHandle at hh1 hh2
  unfold createTodoRun
  rw [if_neg htext, hca, haddr, hsr, hir, hpr]
  simp only [Option.isNone_some, Bool.false_eq_true, if_false,
    Option.getD_some, Option.isSome_some, Bool.and_self, Bool.true_and,
    Bool.and_true, if_true, List.isEmpty_iff, ne_eq]
  rw [if_neg hid, if_neg hcm, htm]
  simp only [List.headD_eq_head?_getD] at hh1 hh2
  simp [hh1, hh2, createdIdHandle]

/-- Characterisation of a successful `toggleTodo` run: with everything
configured it performs exactly the fetch → decrypt → encrypt → submit →
wait → optimistic-update → reload sequence. -/
theorem toggleTodoRun_happy (ctx : HookCtx) (enc : EncryptFn)
    (dec : String → Nat) (fetched : JsValue) (idx : Nat) (ca addr : String)
    (hca : ctx.contractAddress = some ca) (haddr : ctx.address = some addr)
    (hsr : ctx.signerReady = true) (hir : ctx.instanceReady = true)
    (hpr : ctx.providerReady = true) :
    toggleTodoRun ctx enc dec fetched idx =
      ([HookEvent.setMessage "Fetching current todo status...",
        HookEvent.fetchGetTodo ca addr idx,
        HookEvent.setMessage "Decrypting current status...",
        HookEvent.decryptRequest [jsToLower (jsHandleToHex fetched)],
        HookEvent.setMessage "Encrypting new status...",
        HookEvent.encrypt32 ca addr
          (if decodeCompleted (dec (jsToLower (jsHandleToHex fetched)))
            then 0 else 1),
        HookEvent.setMessage "Submitting to blockchain...",
        HookEvent.submitToggleTodo ca idx
          ((enc (if decodeCompleted (dec (jsToLower (jsHandleToHex fetched)))
            then 0 else 1)).handles.headD (JsValue.str ""))
          (enc (if decodeCompleted (dec (jsToLower (jsHandleToHex fetched)))
            then 0 else 1)).inputProof,
        HookEvent.txWait,
        HookEvent.setMessage "Todo toggled successfully!",
        HookEvent.updateLocalTodos,
        HookEvent.scheduleLoadTodos], none) := by
  unfold toggleTodoRun
  rw [hca, haddr, hsr, hir, hpr]
  simp only [Option.isSome_some, Bool.and_self, Bool.true_and, Bool.and_true,
    if_true, Option.getD_some]

/-- The plaintexts a run feeds to the SDK's `add32`, in order. -/
def encryptPlaintexts (events : List HookEvent) : List Nat :=
  events.filterMap fun e =>
    match e with
    | HookEvent.encrypt32 _ _ p => some p
    | _ => none

/-- The contract-call events of a trace (submitted transactions and reads). -/
def contractCallsOf (events : List HookEvent) : List HookEvent :=
  events.filter fun e =>
    match e with
    | HookEvent.submitCreateTodo _ _ _ _ _ => true
    | HookEvent.submitToggleTodo _ _ _ _ => true
    | HookEvent.fetchGetTodo _ _ _ => true
    | _ => false

/-- The SDK-value arguments a contract-call event carries. -/
def contractArgsOf : HookEvent → List JsValue
  | HookEvent.submitCreateTodo _ h1 h2 p1 p2 => [h1, h2, p1, p2]
  | HookEvent.submitToggleTodo _ _ h p => [h, p]
  | _ => []

/-- Masking with the 32-bit mask via `Nat.land` is reduction modulo `2 ^ 32`. -/
theorem land_mask32 (n : Nat) : Nat.land n 4294967295 = n % 2 ^ 32 := by
  show n &&& 4294967295 = n % 2 ^ 32
  apply Nat.eq_of_testBit_eq
  intro i
  rw [Nat.testBit_mod_two_pow, Nat.testBit_and]
  by_cases hi : i < 32
  · have h2 : Nat.testBit 4294967295 i = true := by
      interval_cases i <;> decide
    simp [h2, hi]
  · have h2 : Nat.testBit 4294967295 i = false := by
      apply Nat.testBit_lt_two_pow
      calc (4294967295 : Nat) < 2 ^ 32 := by norm_num
      _ ≤ 2 ^ i := Nat.pow_le_pow_right (by norm_num) (by omega)
    simp [h2, hi]

/-- Concrete hook environment for witnesses: everything configured. -/
def cCtx : HookCtx :=
  { contractAddress := some "0xc0de", address := some "0xa11ce",
    signerReady := true, instanceReady := true, providerReady := true }

/-- Concrete SDK encryption for witnesses: one string handle, one proof. -/
def cEnc : EncryptFn :=
  fun _ => { handles := [JsValue.str "0xAB"], inputProof := JsValue.str "0x01" }

/-- Concrete keccak stand-in for witnesses. -/
def cKeccak : Keccak := fun _ => 5

/-- Concrete decryption result for witnesses. -/
def cDec : String → Nat := fun _ => 0

/-- Empty browser storage for witnesses. -/
def cStore : LocalStorage := fun _ => none

/-- C5 counterexample: the hook's mutating operations do not perform
encrypt → submit → wait-for-receipt → decrypt → reconcile in that order:
on a fully configured concrete environment, `createTodo` performs no
decrypt step at all, and `toggleTodo` performs its decrypt step but never
after the wait-for-receipt (there is no wait-then-decrypt subsequence), so
its step sequence also differs from the claimed one. -/
theorem hook_pipeline_counterexample :
    HookStep.decrypt ∉
      stepsOf (createTodoRun cCtx cKeccak cEnc cEnc "buy milk" cStore).events
      ∧
    HookStep.decrypt ∈
      stepsOf (toggleTodoRun cCtx cEnc cDec (JsValue.str "0xFF") 0).1 ∧
    ¬ [HookStep.waitReceipt, HookStep.decrypt].Sublist
        (stepsOf (toggleTodoRun cCtx cEnc cDec (JsValue.str "0xFF") 0).1) ∧
    stepsOf (createTodoRun cCtx cKeccak cEnc cEnc "buy milk" cStore).events ≠
      [HookStep.encrypt, HookStep.submit, HookStep.waitReceipt,
        HookStep.decrypt, HookStep.reconcile] := by
  decide

/-- C5 (amended): each mutating hook operation is a strict sequence of
awaited steps, but the actual order is: `createTodo` performs
encrypt → encrypt → submit → wait-for-receipt → reconcile-with-local-cache
(no decrypt step), and `toggleTodo` performs
decrypt → encrypt → submit → wait-for-receipt → reconcile (its decrypt of
the current status precedes the encryption of the new one); no other steps
interleave. -/
theorem hook_pipeline_order (ctx : HookCtx) (keccak : Keccak)
    (encId encCompleted enc : EncryptFn) (dec : String → Nat)
    (fetched : JsValue) (idx : Nat) (text : String) (st : LocalStorage)
    (ca addr : String) (tm : List (String × String))
    (hca : ctx.contractAddress = some ca) (haddr : ctx.address = some addr)
    (hsr : ctx.signerReady = true) (hir : ctx.instanceReady = true)
    (hpr : ctx.providerReady = true) (htext : ¬ jsTrim text = "")
    (hid : (encId (hashTextToUint32 keccak text)).handles ≠ [])
    (hcm : (encCompleted 0).handles ≠ [])
    (htm : getTextMap st addr = some tm)
    (hh1 : createdIdHandle keccak encId text ≠ "")
    (hh2 : jsStartsWith (createdIdHandle keccak encId text) "0x" = true) :
    stepsOf (createTodoRun ctx keccak encId encCompleted text st).events =
      [HookStep.encrypt, HookStep.encrypt, HookStep.submit,
        HookStep.waitReceipt, HookStep.reconcile] ∧
    stepsOf (toggleTodoRun ctx enc dec fetched idx).1 =
      [HookStep.decrypt, HookStep.encrypt, HookStep.submit,
        HookStep.waitReceipt, HookStep.reconcile] := by
  constructor
  · rw [createTodoRun_happy ctx keccak encId encCompleted text st ca addr tm
      hca haddr hsr hir hpr htext hid hcm htm hh1 hh2]
    rfl
  · rw [toggleTodoRun_happy ctx enc dec fetched idx ca addr hca haddr hsr
      hir hpr]
    rfl

/-- C5 witness: the amended step sequences on a concrete configured
environment. -/
theorem hook_pipeline_order_witness :
    stepsOf (createTodoRun cCtx cKeccak cEnc cEnc "buy milk" cStore).events =
      [HookStep.encrypt, HookStep.encrypt, HookStep.submit,
        HookStep.waitReceipt, HookStep.reconcile] :=
  (hook_pipeline_order cCtx cKeccak cEnc cEnc cEnc cDec (JsValue.str "0xFF")
    0 "buy milk" cStore "0xc0de" "0xa11ce" [] rfl rfl rfl rfl rfl
    (by decide) (by decide) (by decide) rfl (by decide) (by decide)).1

/-- C6: local-storage caching round-trips: for a connected address and any
string map, `getTextMap` evaluated after `saveTextMap m` returns `m`
(JSON stringify-then-parse is the identity on such maps), the per-address
key is distinct per address and saving leaves other addresses' maps
unchanged; and after a successful `createTodo text` run the address-scoped
text map associates the lowercased hex id handle of the new todo with
`text`, so `loadTodos` then displays `text` for that handle instead of the
placeholder. -/
theorem textMap_roundtrip_and_caches_text (st : LocalStorage)
    (addr ca : String) (m tm : List (String × String)) (ctx : HookCtx)
    (keccak : Keccak) (encId encCompleted : EncryptFn) (text : String)
    (idx : Nat)
    (hnodup : (m.map Prod.fst).Nodup)
    (hca : ctx.contractAddress = some ca) (haddr : ctx.address = some addr)
    (hsr : ctx.signerReady = true) (hir : ctx.instanceReady = true)
    (hpr : ctx.providerReady = true) (htext : ¬ jsTrim text = "")
    (hid : (encId (hashTextToUint32 keccak text)).handles ≠ [])
    (hcm : (encCompleted 0).handles ≠ [])
    (htm : getTextMap st addr = some tm)
    (hh1 : createdIdHandle keccak encId text ≠ "")
    (hh2 : jsStartsWith (createdIdHandle keccak encId text) "0x" = true) :
    getTextMap (saveTextMap st addr m) addr = some m ∧
    (∀ a2, textMapKey a2 = textMapKey addr → a2 = addr) ∧
    (∀ a2, a2 ≠ addr →
      getTextMap (saveTextMap st addr m) a2 = getTextMap st a2) ∧
    (createTodoRun ctx keccak encId encCompleted text st).storage =
      saveTextMap st addr
        (recordSet tm (createdIdHandle keccak encId text) text) ∧
    getTextMap
        (createTodoRun ctx keccak encId encCompleted text st).storage addr =
      some (recordSet tm (createdIdHandle keccak encId text) text) ∧
    recordGet (recordSet tm (createdIdHandle keccak encId text) text)
        (createdIdHandle keccak encId text) = some text ∧
    displayText (recordSet tm (createdIdHandle keccak encId text) text)
        (createdIdHandle keccak encId text) idx = text := by
  have hrun := createTodoRun_happy ctx keccak encId encCompleted text st ca
    addr tm hca haddr hsr hir hpr htext hid hcm htm hh1 hh2
  refine ⟨getTextMap_saveTextMap st addr m, ?_, ?_, ?_, ?_, ?_, ?_⟩
  · intro a2 h
    exact textMapKey_injective a2 addr h
  · intro a2 h2
    unfold getTextMap saveTextMap lsSetItem
    rw [if_neg (fun hk => h2 (textMapKey_injective a2 addr hk))]
  · rw [hrun]
  · rw [hrun]
    exact getTextMap_saveTextMap st addr _
  · exact recordGet_recordSet_self tm (createdIdHandle keccak encId text)
      text
  · have hte : ¬ text = "" := by
      intro h
      exact htext (by rw [h]; rfl)
    simp [displayText, recordGet_recordSet_self, hte]

/-- C6 witness: on a concrete run, the saved map yields the todo text for
the lowercased handle, and the round trip returns the saved map. -/
theorem textMap_roundtrip_and_caches_text_witness :
    displayText (recordSet [] "0xab" "buy milk") "0xab" 0 = "buy milk" ∧
    getTextMap (saveTextMap cStore "0xa11ce" [("k1", "v1")]) "0xa11ce" =
      some [("k1", "v1")] := by
  have h := textMap_roundtrip_and_caches_text cStore "0xa11ce" "0xc0de"
    [("k1", "v1")] [] cCtx cKeccak cEnc cEnc "buy milk" 0 (by decide) rfl
    rfl rfl rfl rfl (by decide) (by decide) (by decide) rfl (by decide)
    (by decide)
  have hch : createdIdHandle cKeccak cEnc "buy milk" = "0xab" := by decide
  refine ⟨?_, h.1⟩
  have h7 := h.2.2.2.2.2.2
  rw [hch] at h7
  exact h7

/-- C7: contract calls carry only encrypted handles and input proofs:
`hashTextToUint32` is `keccak256(text)` masked to 32 bits (deterministic in
`text`), the run feeds exactly that hash and `0` to SDK encryption, two
texts with the same keccak hash produce identical contract-call events, and
if the SDK's outputs do not contain the plaintext then no contract-call
argument equals the plaintext text (the text itself reaches only the
local-storage write). -/
theorem create_contract_args_opaque (ctx : HookCtx) (keccak : Keccak)
    (encId encCompleted : EncryptFn) (text t2 : String) (st : LocalStorage)
    (ca addr : String) (tm : List (String × String))
    (hca : ctx.contractAddress = some ca) (haddr : ctx.address = some addr)
    (hsr : ctx.signerReady = true) (hir : ctx.instanceReady = true)
    (hpr : ctx.providerReady = true) (htext : ¬ jsTrim text = "")
    (hid : (encId (hashTextToUint32 keccak text)).handles ≠ [])
    (hcm : (encCompleted 0).handles ≠ [])
    (htm : getTextMap st addr = some tm)
    (hh1 : createdIdHandle keccak encId text ≠ "")
    (hh2 : jsStartsWith (createdIdHandle keccak encId text) "0x" = true)
    (ht2 : ¬ jsTrim t2 = "") (hk : keccak text = keccak t2) :
    hashTextToUint32 keccak text = keccak text % 2 ^ 32 ∧
    encryptPlaintexts
        (createTodoRun ctx keccak encId encCompleted text st).events =
      [hashTextToUint32 keccak text, 0] ∧
    contractCallsOf
        (createTodoRun ctx keccak encId encCompleted text st).events =
      contractCallsOf
        (createTodoRun ctx keccak encId encCompleted t2 st).events ∧
    ((∀ n, JsValue.str text ∉ (encId n).handles ∧
        (encId n).inputProof ≠ JsValue.str text ∧
        JsValue.str text ∉ (encCompleted n).handles ∧
        (encCompleted n).inputProof ≠ JsValue.str text) →
      ∀ e ∈ (createTodoRun ctx keccak encId encCompleted text st).events,
        JsValue.str text ∉ contractArgsOf e) := by
  have hhash : hashTextToUint32 keccak text = hashTextToUint32 keccak t2 := by
    unfold hashTextToUint32
    rw [hk]
  have hid2 : (encId (hashTextToUint32 keccak t2)).handles ≠ [] :=
    hhash ▸ hid
  have hh1b : createdIdHandle keccak encId t2 ≠ "" := by
    unfold createdIdHandle at hh1 ⊢
    rw [← hhash]
    exact hh1
  have hh2b : jsStartsWith (createdIdHandle keccak encId t2) "0x" = true := by
    unfold createdIdHandle at hh2 ⊢
    rw [← hhash]
    exact hh2
  have hrun := createTodoRun_happy ctx keccak encId encCompleted text st ca
    addr tm hca haddr hsr hir hpr htext hid hcm htm hh1 hh2
  have hrun2 := createTodoRun_happy ctx keccak encId encCompleted t2 st ca
    addr tm hca haddr hsr hir hpr ht2 hid2 hcm htm hh1b hh2b
  refine ⟨?_, ?_, ?_, ?_⟩
  · exact land_mask32 (keccak text)
  · rw [hrun]
    rfl
  · rw [hrun, hrun2, hhash]
    rfl
  · intro hop e he
    rw [hrun] at he
    have hmem : ∀ (l : List JsValue) (d : JsValue), l ≠ [] →
        JsValue.str text ∉ l → ¬ JsValue.str text = l.headD d := by
      intro l d hl hnm hx
      cases l with
      | nil => exact hl rfl
      | cons a as =>
        rw [List.headD_cons] at hx
        refine hnm ?_
        rw [hx]
        simp
    obtain ⟨ha1, ha2, ha3, ha4⟩ := hop (hashTextToUint32 keccak text)
    obtain ⟨hb1, hb2, hb3, hb4⟩ := hop 0
    simp only [List.mem_cons, List.not_mem_nil, or_false] at he
    rcases he with h | h | h | h | h | h | h | h | h
    · subst h; simp [contractArgsOf]
    · subst h; simp [contractArgsOf]
    · subst h; simp [contractArgsOf]
    · subst h; simp [contractArgsOf]
    · subst h
      simp only [contractArgsOf, List.mem_cons, List.not_mem_nil, or_false]
      push_neg
      exact ⟨hmem _ _ hid ha1, hmem _ _ hcm hb3, fun hx => ha2 hx.symm,
        fun hx => hb4 hx.symm⟩
    · subst h; simp [contractArgsOf]
    · subst h; simp [contractArgsOf]
    · subst h; simp [contractArgsOf]
    · subst h; simp [contractArgsOf]

/-- C7 witness: the mask law, the encryption plaintexts and the opacity of
contract-call arguments on a concrete run. -/
theorem create_contract_args_opaque_witness :
    hashTextToUint32 cKeccak "buy milk" = cKeccak "buy milk" % 2 ^ 32 ∧
    encryptPlaintexts
        (createTodoRun cCtx cKeccak cEnc cEnc "buy milk" cStore).events =
      [5, 0] := by
  have h := create_contract_args_opaque cCtx cKeccak cEnc cEnc "buy milk"
    "buy milk" cStore "0xc0de" "0xa11ce" [] rfl rfl rfl rfl rfl (by decide)
    (by decide) (by decide) rfl (by decide) (by decide) (by decide) rfl
  refine ⟨h.1, ?_⟩
  rw [h.2.1]
  decide

/-- C9: every todo created through the hook has its completion status
encrypted from the plaintext `0`: the run's second encryption input is `0`,
and decoding `0` with the hook's completion rule (`=== 1`) yields
not-completed. -/
theorem create_completed_plaintext_zero (ctx : HookCtx) (keccak : Keccak)
    (encId encCompleted : EncryptFn) (text : String) (st : LocalStorage)
    (ca addr : String) (tm : List (String × String))
    (hca : ctx.contractAddress = some ca) (haddr : ctx.address = some addr)
    (hsr : ctx.signerReady = true) (hir : ctx.instanceReady = true)
    (hpr : ctx.providerReady = true) (htext : ¬ jsTrim text = "")
    (hid : (encId (hashTextToUint32 keccak text)).handles ≠ [])
    (hcm : (encCompleted 0).handles ≠ [])
    (htm : getTextMap st addr = some tm)
    (hh1 : createdIdHandle keccak encId text ≠ "")
    (hh2 : jsStartsWith (createdIdHandle keccak encId text) "0x" = true) :
    encryptPlaintexts
        (createTodoRun ctx keccak encId encCompleted text st).events =
      [hashTextToUint32 keccak text, 0] ∧
    (createTodoRun ctx keccak encId encCompleted text st).events.contains
      (HookEvent.encrypt32 ca addr 0) ∧
    decodeCompleted 0 = false := by
  have hrun := createTodoRun_happy ctx keccak encId encCompleted text st ca
    addr tm hca haddr hsr hir hpr htext hid hcm htm hh1 hh2
  refine ⟨?_, ?_, rfl⟩
  · rw [hrun]
    rfl
  · rw [hrun]
    simp

/-- C9 witness: the concrete run encrypts the completion status from `0`
and `0` decodes to not-completed. -/
theorem create_completed_plaintext_zero_witness :
    encryptPlaintexts
        (createTodoRun cCtx cKeccak cEnc cEnc "buy milk" cStore).events =
      [5, 0] ∧ decodeCompleted 0 = false := by
  have h := create_completed_plaintext_zero cCtx cKeccak cEnc cEnc
    "buy milk" cStore "0xc0de" "0xa11ce" [] rfl rfl rfl rfl rfl (by decide)
    (by decide) (by decide) rfl (by decide) (by decide)
  refine ⟨?_, h.2.2⟩
  rw [h.1]
  decide

/-- C10: `createTodo` called with empty or whitespace-only text returns
without throwing, performs no encryption, no contract call and no storage
write — its whole effect is the status message "Todo text cannot be
empty" — whereas with non-blank text a missing contract address or an
uninitialised wallet/instance/provider makes the run throw. -/
theorem createTodo_guard_behaviour (ctx : HookCtx) (keccak : Keccak)
    (encId encCompleted : EncryptFn) (text : String) (st : LocalStorage) :
    (jsTrim text = "" →
      createTodoRun ctx keccak encId encCompleted text st =
        { events := [HookEvent.setMessage emptyTextMsg], thrown := none,
          storage := st }) ∧
    (¬ jsTrim text = "" → ctx.contractAddress = none →
      (createTodoRun ctx keccak encId encCompleted text st).thrown =
        some noContractMsg) ∧
    (¬ jsTrim text = "" → ctx.contractAddress.isSome = true →
      (ctx.signerReady && ctx.instanceReady && ctx.address.isSome &&
        ctx.providerReady) = false →
      (createTodoRun ctx keccak encId encCompleted text st).thrown =
        some noWalletMsg) := by
  refine ⟨?_, ?_, ?_⟩
  · intro h
    unfold createTodoRun
    rw [if_pos h]
  · intro h hca
    unfold createTodoRun
    rw [if_neg h, hca]
    rfl
  · intro h hca hflags
    unfold createTodoRun
    rw [if_neg h]
    have h2 : ctx.contractAddress.isNone = false := by
      cases hx : ctx.contractAddress with
      | none =>
        rw [hx] at hca
        simp at hca
      | some a => rfl
    rw [h2, hflags]
    simp

/-- C10 witness: a whitespace-only text leaves only the status message, a
missing contract address throws, and an unready wallet throws. -/
theorem createTodo_guard_behaviour_witness :
    (createTodoRun cCtx cKeccak cEnc cEnc "   " cStore).events =
      [HookEvent.setMessage emptyTextMsg] ∧
    (createTodoRun { cCtx with contractAddress := none } cKeccak cEnc cEnc
        "buy milk" cStore).thrown = some noContractMsg ∧
    (createTodoRun { cCtx with signerReady := false } cKeccak cEnc cEnc
        "buy milk" cStore).thrown = some noWalletMsg := by
  refine ⟨?_, ?_, ?_⟩
  · exact congrArg CreateTodoResult.events
      ((createTodo_guard_behaviour cCtx cKeccak cEnc cEnc "   " cStore).1
        (by decide))
  · exact (createTodo_guard_behaviour { cCtx with contractAddress := none }
      cKeccak cEnc cEnc "buy milk" cStore).2.1 (by decide) rfl
  · exact (createTodo_guard_behaviour { cCtx with signerReady := false }
      cKeccak cEnc cEnc "buy milk" cStore).2.2 (by decide) rfl rfl

end UseTodoList
